import Mathlib

/-!
# Verification of the vineyard shared-memory bulk store core

A shallow embedding of the bulk-store core of this repository:

* `src/server/memory/memory.cc` — the page reclaimer (`align_up`, `align_down`,
  `recycle_resident_memory`, `recycle_arena`) and the `BulkStore` operations
  (`PreAllocate`, `Create`, `Get`, `Delete`, `Exists`, `MakeArena`,
  `FinalizeArena`);
* `src/common/util/protocols.cc` — the wire codec for the
  `CreateBufferRequest` and `FinalizeArenaRequest` message shapes.

Machine integers (`uintptr_t`, `size_t`) are modelled as `Nat` with an explicit
`% 2^64` exactly where the C code can wrap.  The concurrent hash maps are
modelled as association lists with "insert if absent" (`emplace`) and
"erase key" operations, and `std::set<ObjectID>` / `std::map<size_t, int32_t>`
as sorted duplicate-free lists.  Kernel side effects (`madvise`) are modelled
as the list of `(address, length)` calls a function issues.
-/

namespace Vineyard

/-- `2^64`, the modulus of `uintptr_t`/`size_t` arithmetic on the target platform. -/
def UPTR : Nat := 2 ^ 64

/-- `std::numeric_limits<uintptr_t>::max()`, the all-ones pointer used for the
whole-region sentinel in `BulkStore::PreAllocate` and `BulkStore::Delete`. -/
def UINTPTR_MAX : Nat := 2 ^ 64 - 1

/-- Modelled from the spec: `GenerateBlobID` (declared in `uuid.h`, which is not
under `src/`) is "a pure deterministic hash/encoding function from an
address-sized integer to the identifier type" that never maps two different
pointers to the same identifier; we take the identity encoding. -/
def GenerateBlobID (pointer : Nat) : Nat := pointer

/-- Modelled from the spec: `EmptyBlobID` (declared in `uuid.h`, not under
`src/`) is "a separate sentinel [that] represents the canonical empty
(zero-length) blob".  We use the identifier derived from the null pointer,
which no successful allocation ever returns. -/
def EmptyBlobID : Nat := 0

/-- `memory::system_page_size()`.  Modelled from the spec: the system page size
(`sysconf(_SC_PAGESIZE)`), 4096 bytes on the target platform. -/
def page_size : Nat := 4096

/-- `memory::align_up`: `(address + alignment - 1) & ~(alignment - 1)` in
`uintptr_t` arithmetic.  For the power-of-two alignments used by the source
(page size, block size) the mask form equals rounding up to the next multiple;
the sum is reduced `% 2^64` exactly as the machine addition wraps. -/
def align_up (address alignment : Nat) : Nat :=
  ((address + alignment - 1) % UPTR) / alignment * alignment

/-- `memory::align_down`: `address & ~(alignment - 1)`, i.e. rounding down to a
multiple of the (power-of-two) alignment. -/
def align_down (address alignment : Nat) : Nat :=
  address % UPTR / alignment * alignment

/-- `memory::recycle_resident_memory(aligned_left, aligned_right)` (the
two-argument overload): issues `madvise(aligned_left, aligned_right -
aligned_left, MADV_DONTNEED)` whenever `aligned_left != aligned_right`.  The
result is the list of `(address, length)` advice calls issued; the length is
the `size_t` difference, which wraps modulo `2^64` when
`aligned_right < aligned_left`. -/
def recycle_resident_memory_aligned (aligned_left aligned_right : Nat) : List (Nat × Nat) :=
  if aligned_left ≠ aligned_right then
    [(aligned_left, (aligned_right + UPTR - aligned_left) % UPTR)]
  else []

/-- `memory::recycle_resident_memory(base, left, right)` (the three-argument
overload, the spec's `RecycleRange`): rounds `base + left` up and
`base + right` down to the page size and delegates to the aligned overload. -/
def recycle_resident_memory (base left right : Nat) : List (Nat × Nat) :=
  recycle_resident_memory_aligned
    (align_up (base + left) page_size) (align_down (base + right) page_size)

/-- The sorted-set insertion used to model `std::map`/`std::set` keys:
insert `p` into a strictly sorted list, keeping it sorted and duplicate-free. -/
def insert_point (p : Nat) : List Nat → List Nat
  | [] => [p]
  | q :: rest =>
    if p < q then p :: q :: rest
    else if p = q then q :: rest
    else q :: insert_point p rest

/-- Build the sorted duplicate-free key list of a `std::map<size_t, _>` from
the (unordered) list of keys that were touched. -/
def build_points (ps : List Nat) : List Nat :=
  ps.foldl (fun acc p => insert_point p acc) []

/-- The key set of the `points` map built by `memory::recycle_arena`:
`points[0]`, `points[size]`, and `points[offsets[idx]]`,
`points[offsets[idx] + sizes[idx]]` for each interval. -/
def interval_points (size : Nat) (ivs : List (Nat × Nat)) : List Nat :=
  build_points (0 :: size :: (ivs.map Prod.fst ++ ivs.map (fun iv => iv.1 + iv.2)))

/-- The value stored at key `p` of the `points` map of `memory::recycle_arena`:
`+1` for every interval starting at `p`, `-1` for every interval ending at `p`
(entries created by `points[0]`/`points[size]` default to `0`). -/
def point_delta (ivs : List (Nat × Nat)) (p : Nat) : Int :=
  (ivs.countP (fun iv => decide (iv.1 = p)) : Int) -
    (ivs.countP (fun iv => decide (iv.1 + iv.2 = p)) : Int)

/-- The sweep loop of `memory::recycle_arena`: walk the map keys in increasing
order keeping the running `markersum`; whenever the sum after the current key
is zero and a next key exists, the gap between them is reclaimed. -/
def sweep_gaps (delta : Nat → Int) (acc : Int) : List Nat → List (Nat × Nat)
  | [] => []
  | [_] => []
  | a :: b :: rest =>
    if acc + delta a = 0 then (a, b) :: sweep_gaps delta (acc + delta a) (b :: rest)
    else sweep_gaps delta (acc + delta a) (b :: rest)

/-- The list of `(left, right)` offset intervals that `memory::recycle_arena`
passes to `recycle_resident_memory(base, left, right)` — the uncovered-gap
computation, before any page rounding. -/
def arena_gaps (size : Nat) (ivs : List (Nat × Nat)) : List (Nat × Nat) :=
  sweep_gaps (point_delta ivs) 0 (interval_points size ivs)

/-- `memory::recycle_arena(base, size, offsets, sizes)`: the `madvise` calls it
issues, obtained by reclaiming every uncovered gap. -/
def recycle_arena (base size : Nat) (offsets sizes : List Nat) : List (Nat × Nat) :=
  (arena_gaps size (offsets.zip sizes)).flatMap
    (fun g => recycle_resident_memory base g.1 g.2)

/-- Spec-side definition (for comparison with `arena_gaps`): byte `x` is
covered by one of the `(offset, length)` intervals. -/
def covered (ivs : List (Nat × Nat)) (x : Nat) : Prop :=
  ∃ iv ∈ ivs, iv.1 ≤ x ∧ x < iv.1 + iv.2

instance (ivs : List (Nat × Nat)) (x : Nat) : Decidable (covered ivs x) :=
  List.decidableBEx _ ivs

/-- Spec-side definition: `[a, b)` is a maximal sub-interval of `[0, size)` not
covered by any input interval. -/
def maximal_uncovered (size : Nat) (ivs : List (Nat × Nat)) (a b : Nat) : Prop :=
  a < b ∧ b ≤ size ∧ (∀ x, a ≤ x → x < b → ¬ covered ivs x) ∧
    (a = 0 ∨ covered ivs (a - 1)) ∧ (b = size ∨ covered ivs b)

/-! ## Association-list maps (the concurrent hash tables and `std::map`) -/

/-- Lookup in an association-list map. -/
def lookupA {α β : Type} [DecidableEq α] : List (α × β) → α → Option β
  | [], _ => none
  | e :: rest, k => if e.1 = k then some e.2 else lookupA rest k

/-- Membership test (`find` returning a boolean). -/
def containsA {α β : Type} [DecidableEq α] (l : List (α × β)) (k : α) : Bool :=
  (lookupA l k).isSome

/-- `emplace`: insert only when the key is absent (the semantics of
`tbb::concurrent_hash_map::emplace` and `std::map::emplace`). -/
def emplaceA {α β : Type} [DecidableEq α] (l : List (α × β)) (k : α) (v : β) :
    List (α × β) :=
  if containsA l k then l else (k, v) :: l

/-- `erase` by key: remove the entry with this key (no-op when absent). -/
def eraseKeyA {α β : Type} [DecidableEq α] : List (α × β) → α → List (α × β)
  | [], _ => []
  | e :: rest, k => if e.1 = k then eraseKeyA rest k else e :: eraseKeyA rest k

/-! ## The data model -/

/-- Modelled from the spec: `Payload` (declared in `common/memory/payload.h`,
not under `src/`) — "the metadata record for one blob — object id, external id
(optional), data size, external size (optional), raw pointer into the shared
region, backing file descriptor (-1 if allocated from the main pool, else an
arena fd), mapping size, and byte offset within that mapping".  `external_id`
uses the empty string as the default (the `{}` passed by the two-argument
`Create`). -/
structure Payload where
  object_id : Nat
  external_id : String
  data_size : Nat
  external_size : Nat
  pointer : Nat
  store_fd : Int
  arena_fd : Int
  map_size : Nat
  data_offset : Nat
deriving DecidableEq

/-- Modelled from the spec: `Payload::MakeEmpty` — the "canonical
always-available in-memory sentinel instance" for the zero-size blob,
"never stored in the registry". -/
def MakeEmpty : Payload :=
  { object_id := EmptyBlobID, external_id := "", data_size := 0,
    external_size := 0, pointer := 0, store_fd := -1, arena_fd := -1,
    map_size := 0, data_offset := 0 }

/-- `BulkStore::Arena`: "file descriptor, total size, base address". -/
structure ArenaRec where
  fd : Int
  size : Nat
  base : Nat
deriving DecidableEq

/-- Modelled from the spec: the Block Allocator (`server/memory/allocator.h`,
not under `src/`) — one contiguous pre-reserved address range with aligned
allocation, free, and footprint accounting against a hard ceiling.  We model
it as a bump allocator over `[base, base + capacity)`; the claims depend only
on success/failure, the footprint accounting, and the returned pointers lying
inside the reserved range. -/
structure AllocState where
  initialized : Bool
  base : Nat
  capacity : Nat
  limit : Nat
  allocated : Nat
  bump : Nat
deriving DecidableEq

/-- Modelled from the spec: `kBlockSize` (from `server/memory/malloc.h`, not
under `src/`), the block alignment requested by `BulkStore::AllocateMemory`. -/
def kBlockSize : Nat := 64

/-- Modelled from the spec: `BulkAllocator::Memalign(size, alignment)` returns
an `alignment`-aligned block of `size` bytes inside the reserved range, "or a
null result if the request would exceed the footprint limit or the arena is
exhausted". -/
def Memalign (size alignment : Nat) (a : AllocState) : Option (Nat × AllocState) :=
  if a.initialized then
    let p := (a.base + a.bump + alignment - 1) / alignment * alignment
    if p + size ≤ a.base + a.capacity ∧ a.allocated + size ≤ a.limit then
      some (p, { a with bump := p + size - a.base, allocated := a.allocated + size })
    else none
  else none

/-- Modelled from the spec: `BulkAllocator::Free(pointer, size)` releases a
block; the footprint accounting drops by `size`. -/
def AllocFree (size : Nat) (a : AllocState) : AllocState :=
  { a with allocated := a.allocated - size }

/-- Modelled from the spec: `BulkAllocator::Init(capacity)` "reserves a single
contiguous address range up to `capacity` bytes and returns its base pointer,
or signals out-of-memory".  `osBase` is the address the OS hands back; `0`
stands for `nullptr` (failure), and a successful reservation is a valid
address range below the reserved all-ones pointer. -/
def AllocInit (capacity osBase : Nat) (a : AllocState) : Option AllocState :=
  if 0 < osBase ∧ osBase + capacity < UPTR then
    some { a with initialized := true, base := osBase, capacity := capacity,
                  allocated := 0, bump := 0 }
  else none

/-- The statuses returned by the bulk-store operations (`Status` in
`common/util/status.h`, reduced to the kinds this core uses). -/
inductive VStatus where
  | ok
  | notEnoughMemory
  | objectNotExists
  | userInputError
  | invalid
deriving DecidableEq

/-- The `BulkStore` state: the allocator, the `objects_` and `externals_`
concurrent maps, the `arenas_` open-arena table, and the process-wide
`Arena::spans` ordered set. -/
structure StoreState where
  alloc : AllocState
  objects : List (Nat × Payload)
  externals : List (String × Payload)
  arenas : List (Int × ArenaRec)
  spans : List Nat
deriving DecidableEq

/-- The state of a freshly constructed `BulkStore` (allocator uninitialized,
all tables empty). -/
def initState : StoreState :=
  { alloc := { initialized := false, base := 0, capacity := 0, limit := 0,
               allocated := 0, bump := 0 },
    objects := [], externals := [], arenas := [], spans := [] }

/-- `BulkStore::PreAllocate(size)`: set the footprint limit, initialize the
allocator (`osBase` is the base address the OS returns, `0` for failure), and
on success register the whole-region sentinel payload under
`GenerateBlobID((uintptr_t) -1)`.  The `GetMallocMapinfo` OS metadata is
modelled as descriptor `0`, mapping size `size`, offset `0`. -/
def PreAllocate (size osBase : Nat) (s : StoreState) : VStatus × StoreState :=
  let a0 := { s.alloc with limit := size }
  match AllocInit size osBase a0 with
  | none => (.notEnoughMemory, { s with alloc := a0 })
  | some a1 =>
    let object_id := GenerateBlobID UINTPTR_MAX
    let pl : Payload :=
      { object_id := object_id, external_id := "", data_size := size,
        external_size := 0, pointer := osBase, store_fd := 0, arena_fd := -1,
        map_size := size, data_offset := 0 }
    (.ok, { s with alloc := a1, objects := emplaceA s.objects object_id pl })

/-- `BulkStore::Create(data_size, external_id, external_size, ...)`: size 0
returns the empty sentinel immediately; otherwise allocate from the block
allocator (alignment `kBlockSize`), derive the id from the pointer, and
emplace the payload into `objects_` and `externals_`.  The two-argument
`Create` is `Create data_size "" 0`. -/
def Create (data_size : Nat) (external_id : String) (external_size : Nat)
    (s : StoreState) : VStatus × Option (Nat × Payload) × StoreState :=
  if data_size = 0 then (.ok, some (EmptyBlobID, MakeEmpty), s)
  else
    match Memalign data_size kBlockSize s.alloc with
    | none => (.notEnoughMemory, none, s)
    | some (p, a1) =>
      let object_id := GenerateBlobID p
      let pl : Payload :=
        { object_id := object_id, external_id := external_id,
          data_size := data_size, external_size := external_size, pointer := p,
          store_fd := 0, arena_fd := -1, map_size := s.alloc.capacity,
          data_offset := p - s.alloc.base }
      (.ok, some (object_id, pl),
        { s with alloc := a1,
                 objects := emplaceA s.objects object_id pl,
                 externals := emplaceA s.externals external_id pl })

/-- `BulkStore::Get(id)`: the empty sentinel for the empty id, else a map
lookup. -/
def GetById (id : Nat) (s : StoreState) : VStatus × Option Payload :=
  if id = EmptyBlobID then (.ok, some MakeEmpty)
  else
    match lookupA s.objects id with
    | some pl => (.ok, some pl)
    | none => (.objectNotExists, none)

/-- `BulkStore::Get(ids, objects)` (batch): unresolvable ids are silently
skipped; the empty id yields the sentinel. -/
def GetBatch (ids : List Nat) (s : StoreState) : List Payload :=
  ids.foldl (fun acc id =>
    if id = EmptyBlobID then acc ++ [MakeEmpty]
    else
      match lookupA s.objects id with
      | some pl => acc ++ [pl]
      | none => acc) []

/-- `BulkStore::Get(eids, objects)` (batch by external id): unresolvable keys
are silently skipped. -/
def GetByExternal (eids : List String) (s : StoreState) : List Payload :=
  eids.foldl (fun acc eid =>
    match lookupA s.externals eid with
    | some pl => acc ++ [pl]
    | none => acc) []

/-- `BulkStore::Exists(ObjectID)`. -/
def ExistsId (s : StoreState) (id : Nat) : Bool :=
  containsA s.objects id

/-- `BulkStore::Exists(ExternalID)`. -/
def ExistsExternal (s : StoreState) (eid : String) : Bool :=
  containsA s.externals eid

/-- `BulkStore::Footprint()`: delegates to `BulkAllocator::Allocated()`. -/
def Footprint (s : StoreState) : Nat := s.alloc.allocated

/-- `BulkStore::FootprintLimit()`: delegates to
`BulkAllocator::GetFootprintLimit()`. -/
def FootprintLimit (s : StoreState) : Nat := s.alloc.limit

/-- The `lower_bound` computation of the arena branch of `BulkStore::Delete`:
when the spans iterator is not `begin()` (`0 < pos`), look up the previous
span's blob — `none` models the `Status::Invalid` internal-state error when it
is missing from the registry — and round its end up to the page size;
otherwise use `lower`, the deleted blob's own page-rounded-down pointer. -/
def deleteLowerBound (s : StoreState) (pos lower : Nat) : Option Nat :=
  if 0 < pos then
    match lookupA s.objects (s.spans.getD (pos - 1) 0) with
    | none => none
    | some obj_prev =>
      some (align_up (obj_prev.pointer + obj_prev.data_size) page_size)
  else some lower

/-- The `upper_bound` computation of the arena branch of `BulkStore::Delete`:
when a next span exists, look up its blob (`none` models `Status::Invalid`)
and round its pointer down to the page size; otherwise use `upper`, the
deleted blob's page-rounded-up pointer. -/
def deleteUpperBound (s : StoreState) (pos upper : Nat) : Option Nat :=
  if pos + 1 < s.spans.length then
    match lookupA s.objects (s.spans.getD (pos + 1) 0) with
    | none => none
    | some obj_next => some (align_down obj_next.pointer page_size)
  else some upper

/-- `BulkStore::Delete(ObjectID)`.  The early return covers the empty sentinel
and the whole-region sentinel.  A free-pool blob (`arena_fd == -1`) returns its
bytes to the allocator; an arena-backed blob looks up its address-adjacent
neighbours in `Arena::spans` (returning `Status::Invalid` when a neighbour id
has no registry entry) and advises the kernel over the page-aligned window
between them.  Finally the entry keyed by the blob's external id is erased
from `externals_` and the blob from `objects_`. -/
def DeleteId (object_id : Nat) (s : StoreState) : VStatus × StoreState :=
  if object_id = EmptyBlobID ∨ object_id = GenerateBlobID UINTPTR_MAX then (.ok, s)
  else
    match lookupA s.objects object_id with
    | none => (.objectNotExists, s)
    | some obj =>
      if obj.arena_fd = -1 then
        (.ok, { s with alloc := AllocFree obj.data_size s.alloc,
                       externals := eraseKeyA s.externals obj.external_id,
                       objects := eraseKeyA s.objects object_id })
      else
        -- `s.spans.indexOf object_id` models the `std::set` iterator: the
        -- position of `object_id`, or `length` (`end()`) when absent.
        match deleteLowerBound s (s.spans.indexOf object_id)
            (align_down obj.pointer page_size) with
        | none => (.invalid, s)
        | some _lower_bound =>
          match deleteUpperBound s (s.spans.indexOf object_id)
              (align_up obj.pointer page_size) with
          | none => (.invalid, s)
          | some _upper_bound =>
            -- The source then calls `recycle_resident_memory` over
            -- `(max lower lower_bound, min upper upper_bound)` when that
            -- window is nonempty: kernel advice only, no store-state change
            -- (the reclaimer itself is modelled by `recycle_resident_memory`).
            (.ok, { s with externals := eraseKeyA s.externals obj.external_id,
                           objects := eraseKeyA s.objects object_id })

/-- `BulkStore::Delete(ExternalID)`: resolve through `externals_` and
delegate; a miss is a no-op success. -/
def DeleteExternal (eid : String) (s : StoreState) : VStatus × StoreState :=
  match lookupA s.externals eid with
  | some obj => DeleteId obj.object_id s
  | none => (.ok, s)

/-- `BulkStore::MakeArena(size, fd, base)`: `osFd` is the descriptor returned
by `memory::create_buffer` (`-1` for failure) and `osBase` the address `mmap`
returns; on success the arena is recorded in the open table. -/
def MakeArena (size : Nat) (osFd : Int) (osBase : Nat) (s : StoreState) :
    VStatus × Int × Nat × StoreState :=
  if osFd = -1 then (.notEnoughMemory, osFd, 0, s)
  else
    (.ok, osFd, osBase,
      { s with arenas := emplaceA s.arenas osFd ⟨osFd, size, osBase⟩ })

/-- `BulkStore::FinalizeArena(fd, offsets, sizes)`: not-found when `fd` is not
in the open table, user-input error when the lists' lengths differ; otherwise
register one payload per `(offset, size)` pair (backing fd = the arena's fd),
record each id in `Arena::spans`, recycle the uncovered gaps (kernel advice
only; the `mmap_records` bookkeeping lives outside this state), and erase the
arena from the open table.  The per-pair registration loop is split out as
`finalizeLoop` below. -/
def finalizeLoop (fd : Int) (mmap_base mmap_size : Nat)
    (pairs : List (Nat × Nat)) (s : StoreState) : StoreState :=
  pairs.foldl (fun acc osz =>
    let pointer := mmap_base + osz.1
    let object_id := GenerateBlobID pointer
    let pl : Payload :=
      { object_id := object_id, external_id := "", data_size := osz.2,
        external_size := 0, pointer := pointer, store_fd := fd,
        arena_fd := fd, map_size := mmap_size, data_offset := osz.1 }
    { acc with objects := emplaceA acc.objects object_id pl,
               spans := insert_point object_id acc.spans }) s

def FinalizeArena (fd : Int) (offsets sizes : List Nat) (s : StoreState) :
    VStatus × StoreState :=
  match lookupA s.arenas fd with
  | none => (.objectNotExists, s)
  | some arena =>
    if offsets.length ≠ sizes.length then (.userInputError, s)
    else
      let mmap_size := arena.size
      let mmap_base := arena.base
      let s1 := finalizeLoop fd mmap_base mmap_size (offsets.zip sizes) s
      let _ := recycle_arena mmap_base mmap_size offsets sizes
      (.ok, { s1 with arenas := eraseKeyA s1.arenas fd })

/-- One client-visible operation on the store, carrying the OS oracle results
(`osBase`, `osFd`) the corresponding C++ call would obtain. -/
inductive StoreOp where
  | preAllocate (size osBase : Nat)
  | create (data_size : Nat) (external_id : String) (external_size : Nat)
  | getById (id : Nat)
  | getBatch (ids : List Nat)
  | getByExternal (eids : List String)
  | deleteById (id : Nat)
  | deleteExternal (eid : String)
  | existsId (id : Nat)
  | existsExternal (eid : String)
  | makeArena (size : Nat) (osFd : Int) (osBase : Nat)
  | finalizeArena (fd : Int) (offsets sizes : List Nat)

/-- The state reached after one operation (read-only operations leave the
state unchanged). -/
def stepOp (s : StoreState) : StoreOp → StoreState
  | .preAllocate size osBase => (PreAllocate size osBase s).2
  | .create d e es => (Create d e es s).2.2
  | .getById _ => s
  | .getBatch _ => s
  | .getByExternal _ => s
  | .deleteById id => (DeleteId id s).2
  | .deleteExternal e => (DeleteExternal e s).2
  | .existsId _ => s
  | .existsExternal _ => s
  | .makeArena sz fd b => (MakeArena sz fd b s).2.2.2
  | .finalizeArena fd o z => (FinalizeArena fd o z s).2

/-- Run a sequence of operations from a state. -/
def runOps (s : StoreState) (ops : List StoreOp) : StoreState :=
  ops.foldl stepOp s

/-! ## Wire codec (`common/util/protocols.cc`) -/

/-- The JSON values the two modelled message shapes use. -/
inductive JValue where
  | jstr (s : String)
  | jnat (n : Nat)
  | jint (i : Int)
  | jnats (l : List Nat)
deriving DecidableEq

/-- A JSON object: a finite map from field names to values. -/
def JObject : Type := List (String × JValue)

/-- `root["k"] = v`: assignment overwrites any existing binding. -/
def jset (root : JObject) (k : String) (v : JValue) : JObject :=
  (k, v) :: eraseKeyA root k

/-- `root["k"]` on the decode side. -/
def jget (root : JObject) (k : String) : Option JValue :=
  lookupA root k

/-- `root["k"].get<size_t>()`: fails (throws) unless the field holds a
number. -/
def jgetNat (root : JObject) (k : String) : Option Nat :=
  match jget root k with
  | some (.jnat n) => some n
  | _ => none

/-- `root["k"].get<int>()`. -/
def jgetInt (root : JObject) (k : String) : Option Int :=
  match jget root k with
  | some (.jint i) => some i
  | _ => none

/-- `root["k"].get<std::string>()` (the `ExternalID` decode). -/
def jgetStr (root : JObject) (k : String) : Option String :=
  match jget root k with
  | some (.jstr v) => some v
  | _ => none

/-- `root["k"].get<std::vector<size_t>>()`. -/
def jgetNats (root : JObject) (k : String) : Option (List Nat) :=
  match jget root k with
  | some (.jnats l) => some l
  | _ => none

/-- `WriteCreateBufferRequest(size, external_id, external_size, msg)`: the
tagged record it encodes (`encode_msg` serializes this record to the wire; the
string serialization is the external JSON library's inverse pair). -/
def WriteCreateBufferRequest (size : Nat) (external_id : String)
    (external_size : Nat) : JObject :=
  jset (jset (jset (jset [] "type" (.jstr "create_buffer_request"))
    "size" (.jnat size)) "external_size" (.jnat external_size))
    "external_id" (.jstr external_id)

/-- `ReadCreateBufferRequest(root, size, external_id, external_size)`:
validates the tag (`RETURN_ON_ASSERT`) and extracts the three fields;
`none` models the failure `Status`. -/
def ReadCreateBufferRequest (root : JObject) :
    Option (Nat × String × Nat) :=
  if jget root "type" = some (.jstr "create_buffer_request") then
    match jgetNat root "size", jgetStr root "external_id",
        jgetNat root "external_size" with
    | some size, some eid, some esz => some (size, eid, esz)
    | _, _, _ => none
  else none

/-- `WriteFinalizeArenaRequest(fd, offsets, sizes, msg)`: the tagged record it
encodes. -/
def WriteFinalizeArenaRequest (fd : Int) (offsets sizes : List Nat) : JObject :=
  jset (jset (jset (jset [] "type" (.jstr "finalize_arena_request"))
    "fd" (.jint fd)) "offsets" (.jnats offsets)) "sizes" (.jnats sizes)

/-- `ReadFinalizeArenaRequest(root, fd, offsets, sizes)`: validates the tag and
extracts the three fields. -/
def ReadFinalizeArenaRequest (root : JObject) :
    Option (Int × List Nat × List Nat) :=
  if jget root "type" = some (.jstr "finalize_arena_request") then
    match jgetInt root "fd", jgetNats root "offsets", jgetNats root "sizes" with
    | some fd, some offsets, some sizes => some (fd, offsets, sizes)
    | _, _, _ => none
  else none

/-! ## Derived quantities and concrete states used by the claim checks -/

/-- The running `markersum` of the sweep after processing every key `≤ k`:
the sum of `delta` over the keys of `l` that are at most `k`. -/
def prefix_delta (delta : Nat → Int) (l : List Nat) (k : Nat) : Int :=
  ((l.filter (fun p => decide (p ≤ k))).map delta).sum

/-- Spec-side: the number of input intervals covering byte `x`. -/
def cover_count (ivs : List (Nat × Nat)) (x : Nat) : Nat :=
  ivs.countP (fun iv => decide (iv.1 ≤ x ∧ x < iv.1 + iv.2))

/-- The state used by the concrete witnesses: a store whose allocator was
initialized by `PreAllocate(4096)` at base address `4096`. -/
def demoBase : StoreState := (PreAllocate 4096 4096 initState).2

/-- A store with one open arena (fd 1, size 10, base 64), for the
finalize-arena error witnesses. -/
def demoArena : StoreState := { initState with arenas := [(1, ⟨1, 10, 64⟩)] }

/-- The concrete run exhibiting the arena-spans violation: pre-allocate, open
an arena (fd 7, base 64, size 8), finalize it into two adjacent blobs at 64
and 68, then delete the first blob. -/
def c1_run : StoreState :=
  runOps initState
    [ .preAllocate 4096 4096,
      .makeArena 8 7 64,
      .finalizeArena 7 [0, 4] [4, 4],
      .deleteById (GenerateBlobID 64) ]

/-! ## Association-list map lemmas -/

theorem lookupA_cons {α β : Type} [DecidableEq α] (e : α × β) (l : List (α × β))
    (k : α) : lookupA (e :: l) k = if e.1 = k then some e.2 else lookupA l k :=
  rfl

theorem lookupA_emplaceA_fresh {α β : Type} [DecidableEq α] {l : List (α × β)}
    {k : α} (v : β) (h : lookupA l k = none) :
    lookupA (emplaceA l k v) k = some v := by
  simp [emplaceA, containsA, h, lookupA_cons]

theorem lookupA_emplaceA_ne {α β : Type} [DecidableEq α] (l : List (α × β))
    (k k' : α) (v : β) (h : k ≠ k') :
    lookupA (emplaceA l k v) k' = lookupA l k' := by
  unfold emplaceA
  by_cases hc : containsA l k = true
  · simp [hc]
  · simp [hc, lookupA_cons, h]

theorem containsA_emplaceA_of {α β : Type} [DecidableEq α] {l : List (α × β)}
    {k' : α} (k : α) (v : β) (h : containsA l k' = true) :
    containsA (emplaceA l k v) k' = true := by
  unfold emplaceA
  by_cases hc : containsA l k = true
  · simp [hc, h]
  · simp [hc]
    by_cases hk : k = k'
    · simp [containsA, lookupA_cons, hk]
    · simpa [containsA, lookupA_cons, hk] using h

theorem lookupA_eraseKeyA_self {α β : Type} [DecidableEq α] (l : List (α × β))
    (k : α) : lookupA (eraseKeyA l k) k = none := by
  induction l with
  | nil => rfl
  | cons e rest ih =>
    by_cases h : e.1 = k
    · simpa [eraseKeyA, h] using ih
    · simpa [eraseKeyA, h, lookupA_cons] using ih

theorem lookupA_eraseKeyA_ne {α β : Type} [DecidableEq α] (l : List (α × β))
    (k k' : α) (h : k' ≠ k) :
    lookupA (eraseKeyA l k) k' = lookupA l k' := by
  induction l with
  | nil => rfl
  | cons e rest ih =>
    by_cases he : e.1 = k
    · have hne : e.1 ≠ k' := fun hk => h (hk ▸ he)
      rw [show eraseKeyA (e :: rest) k = eraseKeyA rest k by simp [eraseKeyA, he],
        lookupA_cons, if_neg hne]
      exact ih
    · rw [show eraseKeyA (e :: rest) k = e :: eraseKeyA rest k by
          simp [eraseKeyA, he],
        lookupA_cons, lookupA_cons]
      by_cases he' : e.1 = k'
      · simp [he']
      · simp only [he', if_false]
        exact ih

theorem containsA_eraseKeyA_of {α β : Type} [DecidableEq α] {l : List (α × β)}
    {k' : α} (k : α) (h : containsA l k' = true) (hne : k' ≠ k) :
    containsA (eraseKeyA l k) k' = true := by
  unfold containsA at *
  rw [lookupA_eraseKeyA_ne l k k' hne]
  exact h

/-- The footprint-allocator bound: `x ≤ ⌈x / 64⌉ * 64` for the
`kBlockSize`-aligned pointer computation. -/
theorem le_round_up_64 (x : Nat) : x ≤ (x + 63) / 64 * 64 := by
  have hdm := Nat.div_add_mod (x + 63) 64
  have hlt : (x + 63) % 64 < 64 := Nat.mod_lt _ (by norm_num)
  omega

theorem Memalign_spec (size alignment : Nat) (a : AllocState) (p : Nat)
    (a' : AllocState) (h : Memalign size alignment a = some (p, a')) :
    a.initialized = true ∧
      p = (a.base + a.bump + alignment - 1) / alignment * alignment ∧
      p + size ≤ a.base + a.capacity := by
  unfold Memalign at h
  by_cases hinit : a.initialized
  · simp only [hinit, if_true] at h
    by_cases hc : (a.base + a.bump + alignment - 1) / alignment * alignment + size ≤
        a.base + a.capacity ∧ a.allocated + size ≤ a.limit
    · rw [if_pos hc] at h
      refine ⟨hinit, ?_, ?_⟩
      · exact (Prod.mk.injEq _ _ _ _ ▸ (Option.some.injEq _ _ ▸ h)).1.symm
      · have hp : p = (a.base + a.bump + alignment - 1) / alignment * alignment :=
          (Prod.mk.injEq _ _ _ _ ▸ (Option.some.injEq _ _ ▸ h)).1.symm
        rw [hp]; exact hc.1
    · rw [if_neg hc] at h; exact absurd h (by simp)
  · simp [hinit] at h

/-- `DeleteId` on a registered free-pool blob (backing fd `-1`): it frees the
bytes and erases the blob from both maps. -/
theorem DeleteId_pool (id : Nat) (s : StoreState) (obj : Payload)
    (hg : ¬(id = EmptyBlobID ∨ id = GenerateBlobID UINTPTR_MAX))
    (hl : lookupA s.objects id = some obj) (ha : obj.arena_fd = -1) :
    DeleteId id s =
      (.ok,
        { s with
          alloc := AllocFree obj.data_size s.alloc,
          externals := eraseKeyA s.externals obj.external_id,
          objects := eraseKeyA s.objects id }) := by
  unfold DeleteId
  rw [if_neg hg]
  simp only [hl]
  rw [if_pos ha]

/-! ## The uncovered-gap computation of `recycle_arena` -/

theorem mem_insert_point (p x : Nat) (l : List Nat) :
    x ∈ insert_point p l ↔ x = p ∨ x ∈ l := by
  induction l with
  | nil => simp [insert_point]
  | cons q rest ih =>
    by_cases h1 : p < q
    · simp [insert_point, h1]
    · by_cases h2 : p = q
      · subst h2
        rw [show insert_point p (p :: rest) = p :: rest by
          simp [insert_point, h1]]
        simp only [List.mem_cons]
        tauto
      · simp only [insert_point, if_neg h1, if_neg h2, List.mem_cons, ih]
        tauto

theorem sorted_insert_point (p : Nat) (l : List Nat)
    (h : l.Sorted (· < ·)) : (insert_point p l).Sorted (· < ·) := by
  induction l with
  | nil => simp [insert_point]
  | cons q rest ih =>
    rw [List.sorted_cons] at h
    obtain ⟨hq, hrest⟩ := h
    by_cases h1 : p < q
    · simp only [insert_point, if_pos h1]
      rw [List.sorted_cons]
      refine ⟨fun b hb => ?_, List.sorted_cons.mpr ⟨hq, hrest⟩⟩
      rcases List.mem_cons.mp hb with rfl | hb'
      · exact h1
      · exact h1.trans (hq b hb')
    · by_cases h2 : p = q
      · simpa [insert_point, h1, h2] using List.sorted_cons.mpr ⟨hq, hrest⟩
      · have hqp : q < p := by omega
        simp only [insert_point, if_neg h1, if_neg h2]
        rw [List.sorted_cons]
        refine ⟨fun b hb => ?_, ih hrest⟩
        rcases (mem_insert_point p b rest).mp hb with rfl | hb'
        · exact hqp
        · exact hq b hb'

theorem mem_build_points (ps : List Nat) (x : Nat) :
    x ∈ build_points ps ↔ x ∈ ps := by
  suffices h : ∀ acc, (x ∈ ps.foldl (fun a p => insert_point p a) acc ↔
      x ∈ acc ∨ x ∈ ps) by
    simpa [build_points] using h []
  induction ps with
  | nil => intro acc; simp
  | cons p rest ih =>
    intro acc
    rw [List.foldl_cons, ih, mem_insert_point]
    simp only [List.mem_cons]
    tauto

theorem sorted_build_points (ps : List Nat) :
    (build_points ps).Sorted (· < ·) := by
  suffices h : ∀ acc, acc.Sorted (· < ·) →
      (ps.foldl (fun a p => insert_point p a) acc).Sorted (· < ·) from
    h [] (by simp)
  induction ps with
  | nil => exact fun acc hacc => hacc
  | cons p rest ih =>
    intro acc hacc
    rw [List.foldl_cons]
    exact ih _ (sorted_insert_point p acc hacc)

theorem mem_interval_points (size : Nat) (ivs : List (Nat × Nat)) (q : Nat) :
    q ∈ interval_points size ivs ↔
      q = 0 ∨ q = size ∨ (∃ iv ∈ ivs, iv.1 = q) ∨
        (∃ iv ∈ ivs, iv.1 + iv.2 = q) := by
  simp only [interval_points, mem_build_points, List.mem_cons, List.mem_append,
    List.mem_map]

theorem sorted_interval_points (size : Nat) (ivs : List (Nat × Nat)) :
    (interval_points size ivs).Sorted (· < ·) :=
  sorted_build_points _

theorem mem_fst_of_mem_zip_tail {l : List Nat} {a b : Nat}
    (h : (a, b) ∈ l.zip l.tail) : a ∈ l ∧ b ∈ l := by
  induction l with
  | nil => simp at h
  | cons x tl ih =>
    cases tl with
    | nil => simp at h
    | cons y tl' =>
      simp only [List.tail_cons, List.zip_cons_cons, List.mem_cons] at h
      rcases h with heq | hmem
      · rw [Prod.mk.injEq] at heq
        obtain ⟨rfl, rfl⟩ := heq
        exact ⟨by simp, by simp⟩
      · obtain ⟨ha, hb⟩ := ih hmem
        exact ⟨List.mem_cons.mpr (Or.inr ha), List.mem_cons.mpr (Or.inr hb)⟩

theorem adj_of_mem_zip_tail {l : List Nat} (hs : l.Sorted (· < ·)) {a b : Nat}
    (h : (a, b) ∈ l.zip l.tail) :
    a ∈ l ∧ b ∈ l ∧ a < b ∧ ∀ q ∈ l, q ≤ a ∨ b ≤ q := by
  induction l with
  | nil => simp at h
  | cons x tl ih =>
    cases tl with
    | nil => simp at h
    | cons y tl' =>
      rw [List.sorted_cons] at hs
      obtain ⟨hx, hs'⟩ := hs
      simp only [List.tail_cons, List.zip_cons_cons, List.mem_cons] at h
      rcases h with heq | hmem
      · rw [Prod.mk.injEq] at heq
        obtain ⟨rfl, rfl⟩ := heq
        refine ⟨by simp, by simp, hx b (by simp), fun q hq => ?_⟩
        rcases List.mem_cons.mp hq with rfl | hq'
        · exact Or.inl le_rfl
        · rcases List.mem_cons.mp hq' with rfl | hq''
          · exact Or.inr le_rfl
          · exact Or.inr ((List.sorted_cons.mp hs').1 q hq'').le
      · obtain ⟨ha, hb, hab, hbtw⟩ := ih hs' hmem
        refine ⟨List.mem_cons.mpr (Or.inr ha), List.mem_cons.mpr (Or.inr hb),
          hab, fun q hq => ?_⟩
        rcases List.mem_cons.mp hq with rfl | hq'
        · exact Or.inl (hx a ha).le
        · exact hbtw q hq'

theorem mem_zip_tail_of_adj {l : List Nat} (hs : l.Sorted (· < ·)) {a b : Nat}
    (ha : a ∈ l) (hb : b ∈ l) (hab : a < b)
    (hbtw : ∀ q ∈ l, q ≤ a ∨ b ≤ q) : (a, b) ∈ l.zip l.tail := by
  induction l with
  | nil => simp at ha
  | cons x tl ih =>
    rw [List.sorted_cons] at hs
    obtain ⟨hx, hs'⟩ := hs
    rcases List.mem_cons.mp ha with rfl | ha'
    · have hbtl : b ∈ tl := by
        rcases List.mem_cons.mp hb with rfl | h'
        · exact absurd hab (by omega)
        · exact h'
      cases tl with
      | nil => simp at hbtl
      | cons y tl' =>
        have hby : b = y := by
          have h1 : a < y := hx y (by simp)
          rcases hbtw y (by simp) with h2 | h2
          · omega
          · rcases List.mem_cons.mp hbtl with rfl | hbtl'
            · rfl
            · have h3 : y < b := (List.sorted_cons.mp hs').1 b hbtl'
              omega
        subst hby
        simp [List.zip_cons_cons]
    · have hbtl : b ∈ tl := by
        rcases List.mem_cons.mp hb with rfl | h'
        · exact absurd hab (by have := hx a ha'; omega)
        · exact h'
      cases tl with
      | nil => simp at ha'
      | cons y tl' =>
        have hres := ih hs' ha' hbtl (fun q hq => hbtw q (List.mem_cons.mpr (Or.inr hq)))
        simp only [List.tail_cons, List.zip_cons_cons, List.mem_cons]
        exact Or.inr hres

theorem nodup_zip_tail {l : List Nat} (h : l.Nodup) : (l.zip l.tail).Nodup := by
  induction l with
  | nil => simp
  | cons x tl ih =>
    cases tl with
    | nil => simp
    | cons y tl' =>
      rw [List.nodup_cons] at h
      obtain ⟨hx, h'⟩ := h
      simp only [List.tail_cons, List.zip_cons_cons]
      rw [List.nodup_cons]
      exact ⟨fun hmem => hx (mem_fst_of_mem_zip_tail hmem).1, ih h'⟩

theorem sweep_gaps_eq_filter (delta : Nat → Int) (l : List Nat)
    (hs : l.Sorted (· < ·)) (acc : Int) :
    sweep_gaps delta acc l =
      (l.zip l.tail).filter
        (fun g => decide (acc + prefix_delta delta l g.1 = 0)) := by
  induction l generalizing acc with
  | nil => rfl
  | cons x tl ih =>
    cases tl with
    | nil => rfl
    | cons y tl' =>
      rw [List.sorted_cons] at hs
      obtain ⟨hx, hs'⟩ := hs
      have hprefx : prefix_delta delta (x :: y :: tl') x = delta x := by
        unfold prefix_delta
        have hnil : (y :: tl').filter (fun p => decide (p ≤ x)) = [] := by
          rw [List.filter_eq_nil_iff]
          intro q hq
          have hlt : x < q := hx q hq
          simp
          omega
        rw [show (x :: y :: tl').filter (fun p => decide (p ≤ x)) = [x] by
          rw [List.filter_cons, if_pos (by simp), hnil]]
        simp
      have hshift : ∀ g ∈ (y :: tl').zip tl',
          (decide (acc + prefix_delta delta (x :: y :: tl') g.1 = 0)) =
            (decide (acc + delta x + prefix_delta delta (y :: tl') g.1 = 0)) := by
        intro g hg
        have hg1 : g.1 ∈ y :: tl' := (mem_fst_of_mem_zip_tail hg).1
        have hxg : x ≤ g.1 := (hx g.1 hg1).le
        have hpre : prefix_delta delta (x :: y :: tl') g.1 =
            delta x + prefix_delta delta (y :: tl') g.1 := by
          unfold prefix_delta
          rw [List.filter_cons, if_pos (by simpa using hxg)]
          simp
        rw [hpre]
        exact decide_eq_decide.mpr (by omega)
      simp only [List.tail_cons, List.zip_cons_cons, List.filter_cons]
      have ih' := ih hs' (acc + delta x)
      simp only [List.tail_cons] at ih'
      rw [List.filter_congr hshift, ← ih']
      by_cases hz : acc + delta x = 0
      · rw [show sweep_gaps delta acc (x :: y :: tl') =
            (x, y) :: sweep_gaps delta (acc + delta x) (y :: tl') by
          simp [sweep_gaps, hz]]
        rw [if_pos (by simp [hprefx, hz])]
      · rw [show sweep_gaps delta acc (x :: y :: tl') =
            sweep_gaps delta (acc + delta x) (y :: tl') by
          simp [sweep_gaps, hz]]
        rw [if_neg (by simp [hprefx, hz])]

theorem sum_map_add_nat (l : List Nat) (f g : Nat → Nat) :
    (l.map (fun x => f x + g x)).sum = (l.map f).sum + (l.map g).sum := by
  induction l with
  | nil => rfl
  | cons x tl ih =>
    simp only [List.map_cons, List.sum_cons, ih]
    omega

theorem sum_map_sub_int (l : List Nat) (f g : Nat → Int) :
    (l.map (fun x => f x - g x)).sum = (l.map f).sum - (l.map g).sum := by
  induction l with
  | nil => simp
  | cons x tl ih =>
    simp only [List.map_cons, List.sum_cons, ih]
    ring

theorem sum_map_cast_int (l : List Nat) (f : Nat → Nat) :
    (l.map (fun x => (f x : Int))).sum = ((l.map f).sum : Int) := by
  induction l with
  | nil => simp
  | cons x tl ih => simp [ih]

theorem sum_map_ite_mem (l : List Nat) (a : Nat) (hnd : l.Nodup) :
    (l.map (fun p => if a = p then 1 else 0)).sum = if a ∈ l then 1 else 0 := by
  induction l with
  | nil => simp
  | cons x tl ih =>
    rw [List.nodup_cons] at hnd
    obtain ⟨hx, h'⟩ := hnd
    simp only [List.map_cons, List.sum_cons]
    by_cases hax : a = x
    · subst hax
      rw [if_pos rfl, ih h', if_neg hx, if_pos (by simp)]
    · rw [if_neg hax, ih h']
      by_cases hmem : a ∈ tl
      · rw [if_pos hmem, if_pos (List.mem_cons.mpr (Or.inr hmem))]
      · rw [if_neg hmem, if_neg (by simp [hax, hmem])]

theorem countP_congr_mem {α : Type} (l : List α) (p q : α → Bool)
    (h : ∀ a ∈ l, p a = q a) : l.countP p = l.countP q := by
  induction l with
  | nil => rfl
  | cons x tl ih =>
    simp only [List.countP_cons, h x (by simp),
      ih (fun a ha => h a (List.mem_cons.mpr (Or.inr ha)))]

theorem sum_map_count_nat (ivs : List (Nat × Nat)) (f : Nat × Nat → Nat)
    (l : List Nat) (hnd : l.Nodup) :
    (l.map (fun p => ivs.countP (fun iv => decide (f iv = p)))).sum =
      ivs.countP (fun iv => decide (f iv ∈ l)) := by
  induction ivs with
  | nil => simp
  | cons iv rest ih =>
    simp only [List.countP_cons, decide_eq_true_eq]
    rw [sum_map_add_nat l (fun p => rest.countP (fun iv' => decide (f iv' = p)))
      (fun p => if f iv = p then 1 else 0)]
    rw [ih, sum_map_ite_mem l (f iv) hnd]

theorem covered_iff_pos_cover_count (ivs : List (Nat × Nat)) (x : Nat) :
    covered ivs x ↔ 0 < cover_count ivs x := by
  unfold covered cover_count
  rw [List.countP_pos_iff]
  simp

theorem countP_start_split (ivs : List (Nat × Nat)) (k : Nat) :
    ivs.countP (fun iv => decide (iv.1 ≤ k)) =
      ivs.countP (fun iv => decide (iv.1 + iv.2 ≤ k)) + cover_count ivs k := by
  unfold cover_count
  induction ivs with
  | nil => rfl
  | cons iv rest ih =>
    simp only [List.countP_cons, decide_eq_true_eq]
    rw [ih]
    split_ifs <;> omega

theorem prefix_delta_eq_cover (size : Nat) (ivs : List (Nat × Nat)) (k : Nat) :
    prefix_delta (point_delta ivs) (interval_points size ivs) k =
      (cover_count ivs k : Int) := by
  have hndf : ((interval_points size ivs).filter
      (fun p => decide (p ≤ k))).Nodup :=
    (sorted_interval_points size ivs).nodup.filter _
  unfold prefix_delta point_delta
  rw [sum_map_sub_int _
    (fun p => (ivs.countP (fun iv => decide (iv.1 = p)) : Int))
    (fun p => (ivs.countP (fun iv => decide (iv.1 + iv.2 = p)) : Int))]
  rw [sum_map_cast_int, sum_map_cast_int,
    sum_map_count_nat ivs (fun iv => iv.1) _ hndf,
    sum_map_count_nat ivs (fun iv => iv.1 + iv.2) _ hndf]
  have h1 : ivs.countP (fun iv => decide (iv.1 ∈
        (interval_points size ivs).filter (fun p => decide (p ≤ k)))) =
      ivs.countP (fun iv => decide (iv.1 ≤ k)) := by
    apply countP_congr_mem
    intro iv hiv
    have hmem : iv.1 ∈ interval_points size ivs :=
      (mem_interval_points size ivs iv.1).mpr
        (Or.inr (Or.inr (Or.inl ⟨iv, hiv, rfl⟩)))
    apply decide_eq_decide.mpr
    rw [List.mem_filter]
    simp [hmem]
  have h2 : ivs.countP (fun iv => decide (iv.1 + iv.2 ∈
        (interval_points size ivs).filter (fun p => decide (p ≤ k)))) =
      ivs.countP (fun iv => decide (iv.1 + iv.2 ≤ k)) := by
    apply countP_congr_mem
    intro iv hiv
    have hmem : iv.1 + iv.2 ∈ interval_points size ivs :=
      (mem_interval_points size ivs (iv.1 + iv.2)).mpr
        (Or.inr (Or.inr (Or.inr ⟨iv, hiv, rfl⟩)))
    apply decide_eq_decide.mpr
    rw [List.mem_filter]
    simp [hmem]
  rw [h1, h2, countP_start_split ivs k]
  push_cast
  ring

theorem cover_count_const (size : Nat) (ivs : List (Nat × Nat)) {a b x : Nat}
    (hbtw : ∀ q ∈ interval_points size ivs, q ≤ a ∨ b ≤ q)
    (hax : a ≤ x) (hxb : x < b) :
    cover_count ivs x = cover_count ivs a := by
  have h1 : ivs.countP (fun iv => decide (iv.1 ≤ x)) =
      ivs.countP (fun iv => decide (iv.1 ≤ a)) := by
    apply countP_congr_mem
    intro iv hiv
    have hmem : iv.1 ∈ interval_points size ivs :=
      (mem_interval_points size ivs iv.1).mpr
        (Or.inr (Or.inr (Or.inl ⟨iv, hiv, rfl⟩)))
    apply decide_eq_decide.mpr
    rcases hbtw iv.1 hmem with h | h <;> omega
  have h2 : ivs.countP (fun iv => decide (iv.1 + iv.2 ≤ x)) =
      ivs.countP (fun iv => decide (iv.1 + iv.2 ≤ a)) := by
    apply countP_congr_mem
    intro iv hiv
    have hmem : iv.1 + iv.2 ∈ interval_points size ivs :=
      (mem_interval_points size ivs (iv.1 + iv.2)).mpr
        (Or.inr (Or.inr (Or.inr ⟨iv, hiv, rfl⟩)))
    apply decide_eq_decide.mpr
    rcases hbtw (iv.1 + iv.2) hmem with h | h <;> omega
  have e1 := countP_start_split ivs x
  have e2 := countP_start_split ivs a
  omega

theorem arena_gaps_iff_maximal (size : Nat) (ivs : List (Nat × Nat))
    (hiv : ∀ iv ∈ ivs, 0 < iv.2 ∧ iv.1 + iv.2 ≤ size) (a b : Nat) :
    (a, b) ∈ arena_gaps size ivs ↔ maximal_uncovered size ivs a b := by
  have hsort := sorted_interval_points size ivs
  have hkey : ∀ q ∈ interval_points size ivs, q ≤ size := by
    intro q hq
    rcases (mem_interval_points size ivs q).mp hq with
      rfl | rfl | ⟨iv, hiv', rfl⟩ | ⟨iv, hiv', rfl⟩
    · omega
    · omega
    · have := hiv iv hiv'; omega
    · exact (hiv iv hiv').2
  unfold arena_gaps
  rw [sweep_gaps_eq_filter _ _ hsort 0, List.mem_filter]
  constructor
  · rintro ⟨hzip, hcond⟩
    simp only [zero_add, decide_eq_true_eq, prefix_delta_eq_cover,
      Nat.cast_eq_zero] at hcond
    obtain ⟨hal, hbl, hab, hbtw⟩ := adj_of_mem_zip_tail hsort hzip
    refine ⟨hab, hkey b hbl, ?_, ?_, ?_⟩
    · intro x h1 h2
      rw [covered_iff_pos_cover_count, cover_count_const size ivs hbtw h1 h2]
      omega
    · by_cases ha0 : a = 0
      · exact Or.inl ha0
      · right
        rcases (mem_interval_points size ivs a).mp hal with
          rfl | rfl | ⟨iv, hiv', hfst⟩ | ⟨iv, hiv', hend⟩
        · exact absurd rfl ha0
        · exact absurd hab (by have := hkey b hbl; omega)
        · exfalso
          have hcv : covered ivs a :=
            ⟨iv, hiv', by have := (hiv iv hiv').1; omega⟩
          rw [covered_iff_pos_cover_count] at hcv
          omega
        · have hp := hiv iv hiv'
          exact ⟨iv, hiv', by omega⟩
    · rcases (mem_interval_points size ivs b).mp hbl with
        rfl | rfl | ⟨iv, hiv', hfst⟩ | ⟨iv, hiv', hend⟩
      · exact absurd hab (by omega)
      · exact Or.inl rfl
      · exact Or.inr ⟨iv, hiv', by have := (hiv iv hiv').1; omega⟩
      · exfalso
        have hp := hiv iv hiv'
        have hcv : covered ivs (b - 1) := ⟨iv, hiv', by omega⟩
        rw [covered_iff_pos_cover_count,
          cover_count_const size ivs hbtw (by omega) (by omega)] at hcv
        omega
  · rintro ⟨hab, hbS, hunc, hleft, hright⟩
    have hcova : ¬ covered ivs a := hunc a le_rfl hab
    have hc0 : cover_count ivs a = 0 := by
      rw [covered_iff_pos_cover_count] at hcova
      omega
    have hal : a ∈ interval_points size ivs := by
      by_cases ha0 : a = 0
      · exact (mem_interval_points size ivs a).mpr (Or.inl ha0)
      · rcases hleft with h | ⟨iv, hiv', h1, h2⟩
        · exact absurd h ha0
        · have hend : iv.1 + iv.2 = a := by
            by_contra hne
            exact hcova ⟨iv, hiv', by omega⟩
          exact (mem_interval_points size ivs a).mpr
            (Or.inr (Or.inr (Or.inr ⟨iv, hiv', hend⟩)))
    have hbl : b ∈ interval_points size ivs := by
      rcases hright with h | ⟨iv, hiv', h1, h2⟩
      · exact (mem_interval_points size ivs b).mpr (Or.inr (Or.inl h))
      · have hfst : iv.1 = b := by
          by_contra hne
          exact hunc (b - 1) (by omega) (by omega) ⟨iv, hiv', by omega⟩
        exact (mem_interval_points size ivs b).mpr
          (Or.inr (Or.inr (Or.inl ⟨iv, hiv', hfst⟩)))
    have hbtw : ∀ q ∈ interval_points size ivs, q ≤ a ∨ b ≤ q := by
      intro q hq
      by_contra hc
      push_neg at hc
      obtain ⟨hqa, hqb⟩ := hc
      rcases (mem_interval_points size ivs q).mp hq with
        rfl | rfl | ⟨iv, hiv', hfst⟩ | ⟨iv, hiv', hend⟩
      · omega
      · omega
      · exact hunc q (by omega) (by omega)
          ⟨iv, hiv', by have := (hiv iv hiv').1; omega⟩
      · have hp := hiv iv hiv'
        exact hunc (q - 1) (by omega) (by omega) ⟨iv, hiv', by omega⟩
    refine ⟨mem_zip_tail_of_adj hsort hal hbl hab hbtw, ?_⟩
    simp only [zero_add, decide_eq_true_eq, prefix_delta_eq_cover,
      Nat.cast_eq_zero]
    exact hc0

theorem list_eq_singleton {α : Type} {l : List α} {v : α} (hnd : l.Nodup)
    (hall : ∀ x ∈ l, x = v) (hv : v ∈ l) : l = [v] := by
  cases l with
  | nil => simp at hv
  | cons x tl =>
    have hx : x = v := hall x (by simp)
    subst hx
    rw [List.nodup_cons] at hnd
    cases tl with
    | nil => rfl
    | cons y tl' =>
      have hy : y = x := hall y (by simp)
      subst hy
      exact absurd (List.mem_cons_self _ _) hnd.1

/-! ## Claim theorems -/

/-- C6: `Create(0)` always succeeds, returns the canonical empty-sentinel
ObjectID and the size-0 sentinel payload, and leaves the state — allocator,
footprint, objects registry and external map — entirely unchanged, on every
call. -/
theorem create_zero_returns_empty_sentinel (external_id : String)
    (external_size : Nat) (s : StoreState) :
    Create 0 external_id external_size s = (.ok, some (EmptyBlobID, MakeEmpty), s) ∧
      MakeEmpty.data_size = 0 :=
  ⟨rfl, rfl⟩

/-- C9: wire-codec round trip — for every `fd`, `offsets` and `sizes`,
`ReadFinalizeArenaRequest` applied to the record built by
`WriteFinalizeArenaRequest` succeeds and returns exactly those values, and for
every `size`, `external_id` and `external_size`, `ReadCreateBufferRequest`
applied to the record built by `WriteCreateBufferRequest` succeeds and returns
exactly those values. -/
theorem wire_codec_roundtrip (fd : Int) (offsets sizes : List Nat)
    (size : Nat) (external_id : String) (external_size : Nat) :
    ReadFinalizeArenaRequest (WriteFinalizeArenaRequest fd offsets sizes) =
        some (fd, offsets, sizes) ∧
      ReadCreateBufferRequest (WriteCreateBufferRequest size external_id external_size) =
        some (size, external_id, external_size) :=
  ⟨rfl, rfl⟩

/-- C2: for every total size and finite list of nonempty `(offset, length)`
intervals contained in `[0, size)` (the list may be empty, and intervals may
overlap, duplicate each other, be adjacent, or touch the boundaries), the
uncovered-interval computation of `recycle_arena` passes to the range-reclaim
step exactly the maximal sub-intervals of `[0, size)` not covered by any input
interval: the reclaimed list is duplicate-free, a range is in it exactly when
it is a maximal uncovered interval (so reclaimed ranges contain no covered
byte, and every maximal gap is reclaimed exactly once), and an empty interval
list yields the whole range `[0, size)`. -/
theorem recycle_arena_reclaims_uncovered (size : Nat) (ivs : List (Nat × Nat))
    (hiv : ∀ iv ∈ ivs, 0 < iv.2 ∧ iv.1 + iv.2 ≤ size) :
    (arena_gaps size ivs).Nodup ∧
      (∀ a b, ((a, b) ∈ arena_gaps size ivs ↔ maximal_uncovered size ivs a b)) ∧
      (ivs = [] → 0 < size → arena_gaps size ivs = [(0, size)]) := by
  have hsort := sorted_interval_points size ivs
  have hnd : (arena_gaps size ivs).Nodup := by
    unfold arena_gaps
    rw [sweep_gaps_eq_filter _ _ hsort 0]
    exact (nodup_zip_tail hsort.nodup).filter _
  refine ⟨hnd, fun a b => arena_gaps_iff_maximal size ivs hiv a b,
    fun hnil hS => ?_⟩
  subst hnil
  have hmax : maximal_uncovered size [] 0 size := by
    refine ⟨hS, le_rfl, fun x _ _ hc => ?_, Or.inl rfl, Or.inl rfl⟩
    obtain ⟨iv, hiv', -⟩ := hc
    simp at hiv'
  have hmem : ((0 : Nat), size) ∈ arena_gaps size [] :=
    (arena_gaps_iff_maximal size [] hiv 0 size).mpr hmax
  have hall : ∀ g ∈ arena_gaps size [], g = (0, size) := by
    intro g hg
    obtain ⟨a, b⟩ := g
    obtain ⟨hab, hbS, -, hl, hr⟩ :=
      (arena_gaps_iff_maximal size [] hiv a b).mp hg
    have ha : a = 0 := by
      rcases hl with h | ⟨iv, hiv', -⟩
      · exact h
      · simp at hiv'
    have hb : b = size := by
      rcases hr with h | ⟨iv, hiv', -⟩
      · exact h
      · simp at hiv'
    rw [ha, hb]
  exact list_eq_singleton hnd hall hmem

/-- Witness for C2 at a concrete input: for size 100 and the overlapping
intervals `[(10,20),(15,10)]` the gap list is duplicate-free, and the
membership of `(30, 100)` (checked by evaluation) yields that `[30, 100)` is a
maximal uncovered interval. -/
theorem recycle_arena_reclaims_uncovered_witness :
    (arena_gaps 100 [(10, 20), (15, 10)]).Nodup ∧
      maximal_uncovered 100 [(10, 20), (15, 10)] 30 100 := by
  have h := recycle_arena_reclaims_uncovered 100 [(10, 20), (15, 10)] (by decide)
  exact ⟨h.1, (h.2.1 30 100).mp (by decide)⟩

/-- C3 (counterexample): with `totalSize = 100` and the `(offset, length)`
intervals `[(10,20),(15,10)]` — which cover bytes `[10,30)`, not `[10,25)` —
the uncovered-gap computation of `recycle_arena` does not reclaim `[25,100)`:
the ranges it hands to the range-reclaim step are `[0,10)` and `[30,100)`. -/
theorem recycle_example_claim_false :
    (25, 100) ∉ arena_gaps 100 [(10, 20), (15, 10)] ∧
      arena_gaps 100 [(10, 20), (15, 10)] ≠ [(0, 10), (25, 100)] := by
  decide

/-- C3 (amended): for `totalSize = 100` and intervals `[(10,20),(15,10)]`
(covering bytes `[10,30)`), `recycle_arena` passes to the range-reclaim step
exactly the two ranges `[0,10)` and `[30,100)` (page rounding is applied
afterwards, inside `recycle_resident_memory`). -/
theorem recycle_example_amended :
    arena_gaps 100 [(10, 20), (15, 10)] = [(0, 10), (30, 100)] := by
  decide

/-- C8 (the code at the claim's failing input): for `addressLow = 1`,
`addressHigh = 4095` the rounded bounds are `4096` and `0`, so the claimed
guard "no kernel advice when rounded low ≥ rounded high" is violated:
`recycle_resident_memory` issues one `madvise` call whose `size_t` length
`aligned_right - aligned_left` underflows to `2^64 - 4096`, because the source
guard only checks `aligned_left != aligned_right`. -/
theorem recycle_range_guard_underflow :
    align_up (0 + 1) page_size = 4096 ∧ align_down (0 + 4095) page_size = 0 ∧
      recycle_resident_memory 0 1 4095 = [(4096, UPTR - 4096)] ∧
      recycle_resident_memory 0 1 4095 ≠ [] := by
  decide

/-- C1 (the code at the failing input): after a successful `Delete` of an
arena-backed blob its ObjectID is still a member of the global `Arena::spans`
set while its Payload is gone from the objects registry — `Delete` never
erases from `spans` — so the arena-spans/registry invariant is violated, and a
subsequent `Delete` of the address-adjacent neighbour blob fails with the
code's own internal-consistency `Invalid` error ("previous blob not found"). -/
theorem arena_spans_invariant_violated :
    (DeleteId (GenerateBlobID 64)
        (runOps initState
          [.preAllocate 4096 4096, .makeArena 8 7 64,
           .finalizeArena 7 [0, 4] [4, 4]])).1 = .ok ∧
      GenerateBlobID 64 ∈ c1_run.spans ∧
      lookupA c1_run.objects (GenerateBlobID 64) = none ∧
      (DeleteId (GenerateBlobID 68) c1_run).1 = .invalid := by
  decide

theorem finalizeLoop_arenas (fd : Int) (mb ms : Nat) (pairs : List (Nat × Nat))
    (s : StoreState) : (finalizeLoop fd mb ms pairs s).arenas = s.arenas := by
  induction pairs generalizing s with
  | nil => rfl
  | cons p rest ih => simpa [finalizeLoop, List.foldl_cons] using ih _

/-- C5: `FinalizeArena` fails with not-found whenever `fd` is not in the
open-arena table (an unknown fd, or — since a successful finalize erases its
fd from the table — a fd already finalized once), and fails with a user-input
error whenever the fd is open but the offsets and sizes lists have different
lengths; in both failure cases the whole state (registry, spans, open-arena
table) is unchanged. -/
theorem finalize_arena_error_cases (fd : Int) (offsets sizes : List Nat)
    (s : StoreState) :
    (lookupA s.arenas fd = none →
        FinalizeArena fd offsets sizes s = (.objectNotExists, s)) ∧
      (∀ ar, lookupA s.arenas fd = some ar → offsets.length ≠ sizes.length →
        FinalizeArena fd offsets sizes s = (.userInputError, s)) ∧
      (∀ s1, FinalizeArena fd offsets sizes s = (.ok, s1) →
        lookupA s1.arenas fd = none) := by
  refine ⟨fun h => by simp [FinalizeArena, h], fun ar h hne => by
    simp [FinalizeArena, h, hne], fun s1 h => ?_⟩
  cases hl : lookupA s.arenas fd with
  | none =>
    simp only [FinalizeArena, hl] at h
    exact absurd h (by simp)
  | some ar =>
    by_cases hlen : offsets.length = sizes.length
    · simp only [FinalizeArena, hl, hlen, ne_eq, not_true_eq_false, if_false,
        Prod.mk.injEq] at h
      rw [← h.2]
      exact lookupA_eraseKeyA_self _ fd
    · simp only [FinalizeArena, hl, hlen, ne_eq, not_false_eq_true, if_true,
        Prod.mk.injEq] at h
      exact absurd h.1 (by simp)

/-- Witness for C5 at concrete inputs: an unknown fd fails not-found; a
length mismatch on an open fd fails user-input; after a successful finalize
the fd is gone from the table. -/
theorem finalize_arena_error_cases_witness :
    FinalizeArena 2 [] [] demoArena = (.objectNotExists, demoArena) ∧
      FinalizeArena 1 [0] [] demoArena = (.userInputError, demoArena) ∧
      lookupA (FinalizeArena 1 [] [] demoArena).2.arenas 1 = none := by
  refine ⟨(finalize_arena_error_cases 2 [] [] demoArena).1 (by decide),
    (finalize_arena_error_cases 1 [0] [] demoArena).2.1 ⟨1, 10, 64⟩
      (by decide) (by decide),
    (finalize_arena_error_cases 1 [] [] demoArena).2.2
      (FinalizeArena 1 [] [] demoArena).2 ?_⟩
  decide

/-- C7 (counterexample): a successful `Create` with size 64 performed without
an external id (the default empty `ExternalID` of the two-argument `Create`)
does NOT leave the external map unchanged: `BulkStore::Create` emplaces into
`externals_` unconditionally, so the map gains a binding under the default
empty key. -/
theorem create_without_external_changes_externals :
    (Create 64 "" 0 demoBase).1 = .ok ∧
      (Create 64 "" 0 demoBase).2.2.externals ≠ demoBase.externals := by
  decide

/-- C7 (amended): on every successful `Create` with size > 0, the new Payload
is inserted into the main objects map, and a binding is emplaced into the
external map under the supplied external id — under the default empty id when
none was supplied (so such a `Create` changes the external map unless the
default key is already bound); bindings under every other external id are
untouched. -/
theorem create_inserts_into_maps (data_size : Nat) (external_id : String)
    (external_size : Nat) (s : StoreState) (id : Nat) (pl : Payload)
    (s1 : StoreState) (hpos : 0 < data_size)
    (hfresh : lookupA s.objects id = none)
    (hsucc : Create data_size external_id external_size s =
      (.ok, some (id, pl), s1)) :
    lookupA s1.objects id = some pl ∧
      (lookupA s.externals external_id = none →
        lookupA s1.externals external_id = some pl) ∧
      (∀ e, external_id ≠ e → lookupA s1.externals e = lookupA s.externals e) := by
  unfold Create at hsucc
  rw [if_neg (Nat.pos_iff_ne_zero.mp hpos)] at hsucc
  cases hm : Memalign data_size kBlockSize s.alloc with
  | none => rw [hm] at hsucc; exact absurd hsucc (by simp)
  | some pa =>
    obtain ⟨p, a1⟩ := pa
    rw [hm] at hsucc
    simp only [Prod.mk.injEq, Option.some.injEq] at hsucc
    obtain ⟨-, ⟨hid, hpl⟩, hs1⟩ := hsucc
    subst hid hpl
    rw [← hs1]
    refine ⟨lookupA_emplaceA_fresh _ hfresh, fun he => ?_, fun e hne => ?_⟩
    · exact lookupA_emplaceA_fresh _ he
    · exact lookupA_emplaceA_ne _ _ _ _ hne

/-- Witness for C7's amended theorem at a concrete input: `Create(64)` with
external id `"k"` on the freshly pre-allocated store. -/
theorem create_inserts_into_maps_witness :
    lookupA (Create 64 "k" 7 demoBase).2.2.objects 4096 =
        some { object_id := 4096, external_id := "k", data_size := 64,
               external_size := 7, pointer := 4096, store_fd := 0,
               arena_fd := -1, map_size := 4096, data_offset := 0 } ∧
      lookupA (Create 64 "k" 7 demoBase).2.2.externals "k" =
        some { object_id := 4096, external_id := "k", data_size := 64,
               external_size := 7, pointer := 4096, store_fd := 0,
               arena_fd := -1, map_size := 4096, data_offset := 0 } := by
  have h := create_inserts_into_maps 64 "k" 7 demoBase 4096
    { object_id := 4096, external_id := "k", data_size := 64,
      external_size := 7, pointer := 4096, store_fd := 0, arena_fd := -1,
      map_size := 4096, data_offset := 0 }
    (Create 64 "k" 7 demoBase).2.2 (by decide) (by decide) (by decide)
  exact ⟨h.1, h.2.1 (by decide)⟩

/-- C4: for every size > 0 for which `Create` succeeds returning `id`,
`Exists(id)` is true immediately afterwards; the subsequent `Delete(id)`
succeeds and `Exists(id)` is false immediately after it.  `hwf` states that
the allocator's reserved range is a valid address range (nonnull base, below
the reserved all-ones pointer), and `hfresh` that the allocator handed out a
pointer with no live registry entry — both hold in every state the real
system reaches. -/
theorem create_then_exists_then_delete (data_size : Nat) (external_id : String)
    (external_size : Nat) (s : StoreState)
    (hwf : s.alloc.initialized = true →
      0 < s.alloc.base ∧ s.alloc.base + s.alloc.capacity < UPTR)
    (hpos : 0 < data_size) (id : Nat) (pl : Payload) (s1 : StoreState)
    (hfresh : lookupA s.objects id = none)
    (hsucc : Create data_size external_id external_size s =
      (.ok, some (id, pl), s1)) :
    ExistsId s1 id = true ∧ (DeleteId id s1).1 = .ok ∧
      ExistsId (DeleteId id s1).2 id = false := by
  unfold Create at hsucc
  rw [if_neg (Nat.pos_iff_ne_zero.mp hpos)] at hsucc
  cases hm : Memalign data_size kBlockSize s.alloc with
  | none => rw [hm] at hsucc; exact absurd hsucc (by simp)
  | some pa =>
    obtain ⟨p, a1⟩ := pa
    rw [hm] at hsucc
    simp only [Prod.mk.injEq, Option.some.injEq] at hsucc
    obtain ⟨-, ⟨hid, hpl⟩, hs1⟩ := hsucc
    subst hid hpl hs1
    obtain ⟨hinit, hp, hcap⟩ := Memalign_spec _ _ _ _ _ hm
    obtain ⟨hbase, hrange⟩ := hwf hinit
    have hple : s.alloc.base ≤ p := by
      rw [hp]
      calc s.alloc.base ≤ s.alloc.base + s.alloc.bump := Nat.le_add_right _ _
        _ ≤ _ := by
          have := le_round_up_64 (s.alloc.base + s.alloc.bump)
          simpa [kBlockSize] using this
    have hppos : 0 < p := lt_of_lt_of_le hbase hple
    have hrange' : s.alloc.base + s.alloc.capacity < 2 ^ 64 := hrange
    have hpmax : p < 2 ^ 64 - 1 := by omega
    have hguard : ¬(GenerateBlobID p = EmptyBlobID ∨
        GenerateBlobID p = GenerateBlobID UINTPTR_MAX) := by
      show ¬(p = 0 ∨ p = 2 ^ 64 - 1)
      omega
    have hlook := lookupA_emplaceA_fresh
      (β := Payload) (l := s.objects) (k := GenerateBlobID p)
      { object_id := GenerateBlobID p, external_id := external_id,
        data_size := data_size, external_size := external_size, pointer := p,
        store_fd := 0, arena_fd := -1, map_size := s.alloc.capacity,
        data_offset := p - s.alloc.base } hfresh
    have hdel := DeleteId_pool (GenerateBlobID p)
      { alloc := a1,
        objects := emplaceA s.objects (GenerateBlobID p)
          { object_id := GenerateBlobID p, external_id := external_id,
            data_size := data_size, external_size := external_size,
            pointer := p, store_fd := 0, arena_fd := -1,
            map_size := s.alloc.capacity, data_offset := p - s.alloc.base },
        externals := emplaceA s.externals external_id
          { object_id := GenerateBlobID p, external_id := external_id,
            data_size := data_size, external_size := external_size,
            pointer := p, store_fd := 0, arena_fd := -1,
            map_size := s.alloc.capacity, data_offset := p - s.alloc.base },
        arenas := s.arenas, spans := s.spans }
      _ hguard hlook rfl
    refine ⟨by simp [ExistsId, containsA, hlook], ?_, ?_⟩
    · rw [hdel]
    · rw [hdel]
      simp [ExistsId, containsA, lookupA_eraseKeyA_self]

/-- Witness for C4 at a concrete input: `Create(64)` on the freshly
pre-allocated store returns id 4096; it exists, its delete succeeds, and it no
longer exists. -/
theorem create_then_exists_then_delete_witness :
    ExistsId (Create 64 "" 0 demoBase).2.2 4096 = true ∧
      (DeleteId 4096 (Create 64 "" 0 demoBase).2.2).1 = .ok ∧
      ExistsId (DeleteId 4096 (Create 64 "" 0 demoBase).2.2).2 4096 = false := by
  exact create_then_exists_then_delete 64 "" 0 demoBase (by decide) (by decide)
    4096
    { object_id := 4096, external_id := "", data_size := 64, external_size := 0,
      pointer := 4096, store_fd := 0, arena_fd := -1, map_size := 4096,
      data_offset := 0 }
    (Create 64 "" 0 demoBase).2.2 (by decide) (by decide)

theorem finalizeLoop_contains (fd : Int) (mb ms : Nat)
    (pairs : List (Nat × Nat)) (s : StoreState) (k : Nat)
    (h : containsA s.objects k = true) :
    containsA (finalizeLoop fd mb ms pairs s).objects k = true := by
  induction pairs generalizing s with
  | nil => exact h
  | cons pr rest ih =>
    simp only [finalizeLoop, List.foldl_cons] at *
    exact ih _ (containsA_emplaceA_of _ _ h)

theorem DeleteId_objects_keeps (id : Nat) (s : StoreState) (k : Nat)
    (hne : k ≠ id) (h : containsA s.objects k = true) :
    containsA (DeleteId id s).2.objects k = true := by
  unfold DeleteId
  split
  · exact h
  · split
    · exact h
    · split
      · exact containsA_eraseKeyA_of id h hne
      · split
        · exact h
        · split
          · exact h
          · exact containsA_eraseKeyA_of id h hne

theorem DeleteId_preserves_sentinel (id : Nat) (s : StoreState)
    (h : ExistsId s (GenerateBlobID UINTPTR_MAX) = true) :
    ExistsId (DeleteId id s).2 (GenerateBlobID UINTPTR_MAX) = true := by
  by_cases hg : id = EmptyBlobID ∨ id = GenerateBlobID UINTPTR_MAX
  · unfold DeleteId
    rw [if_pos hg]
    exact h
  · have hne : GenerateBlobID UINTPTR_MAX ≠ id := by
      intro hk
      exact hg (Or.inr hk.symm)
    exact DeleteId_objects_keeps id s _ hne h

/-- C10: after a successful `PreAllocate(size)` on a registry with no
whole-region entry, the objects registry contains a Payload under the
whole-region sentinel ObjectID (derived from the all-ones pointer) describing
the entire pre-allocated region — so `Exists` of that id is true although no
client created it; `Delete` of that id, like `Delete` of the empty-sentinel
id, returns success with the state entirely unchanged; and no operation of the
store ever removes the sentinel entry from the registry. -/
theorem whole_region_sentinel_invariant :
    (∀ size osBase s s1,
        lookupA s.objects (GenerateBlobID UINTPTR_MAX) = none →
        PreAllocate size osBase s = (.ok, s1) →
        lookupA s1.objects (GenerateBlobID UINTPTR_MAX) =
          some { object_id := GenerateBlobID UINTPTR_MAX, external_id := "",
                 data_size := size, external_size := 0, pointer := osBase,
                 store_fd := 0, arena_fd := -1, map_size := size,
                 data_offset := 0 } ∧
          ExistsId s1 (GenerateBlobID UINTPTR_MAX) = true) ∧
      (∀ s : StoreState, DeleteId (GenerateBlobID UINTPTR_MAX) s = (.ok, s) ∧
        DeleteId EmptyBlobID s = (.ok, s)) ∧
      (∀ (s : StoreState) (op : StoreOp),
        ExistsId s (GenerateBlobID UINTPTR_MAX) = true →
        ExistsId (stepOp s op) (GenerateBlobID UINTPTR_MAX) = true) := by
  refine ⟨?_, ?_, ?_⟩
  · intro size osBase s s1 hfresh hpre
    cases hi : AllocInit size osBase { s.alloc with limit := size } with
    | none =>
      simp only [PreAllocate, hi] at hpre
      exact absurd hpre (by simp)
    | some a1 =>
      simp only [PreAllocate, hi, Prod.mk.injEq] at hpre
      rw [← hpre.2]
      constructor
      · exact lookupA_emplaceA_fresh _ hfresh
      · simp [ExistsId, containsA, lookupA_emplaceA_fresh _ hfresh]
  · intro s
    constructor
    · unfold DeleteId
      rw [if_pos (Or.inr rfl)]
    · unfold DeleteId
      rw [if_pos (Or.inl rfl)]
  · intro s op h
    cases op with
    | preAllocate size osBase =>
      show ExistsId (PreAllocate size osBase s).2 _ = true
      cases hi : AllocInit size osBase { s.alloc with limit := size } with
      | none => simpa [PreAllocate, hi, ExistsId, containsA] using h
      | some a1 =>
        simp only [PreAllocate, hi, ExistsId, containsA] at h ⊢
        exact containsA_emplaceA_of _ _ h
    | create d e es =>
      show ExistsId (Create d e es s).2.2 _ = true
      by_cases hd : d = 0
      · simpa [Create, hd] using h
      · cases hm : Memalign d kBlockSize s.alloc with
        | none => simpa [Create, hd, hm] using h
        | some pa =>
          obtain ⟨p, a1⟩ := pa
          simp only [Create, hd, if_false, hm, ExistsId, containsA] at h ⊢
          exact containsA_emplaceA_of _ _ h
    | getById id => exact h
    | getBatch ids => exact h
    | getByExternal eids => exact h
    | deleteById id => exact DeleteId_preserves_sentinel id s h
    | deleteExternal eid =>
      show ExistsId (DeleteExternal eid s).2 _ = true
      unfold DeleteExternal
      cases hl : lookupA s.externals eid with
      | none => exact h
      | some obj =>
        simp only []
        exact DeleteId_preserves_sentinel obj.object_id s h
    | existsId id => exact h
    | existsExternal eid => exact h
    | makeArena sz fd b =>
      show ExistsId (MakeArena sz fd b s).2.2.2 _ = true
      by_cases hfd : fd = -1
      · simpa [MakeArena, hfd] using h
      · simpa [MakeArena, hfd, ExistsId, containsA] using h
    | finalizeArena fd offsets sizes =>
      show ExistsId (FinalizeArena fd offsets sizes s).2 _ = true
      cases hl : lookupA s.arenas fd with
      | none => simpa [FinalizeArena, hl] using h
      | some ar =>
        by_cases hlen : offsets.length = sizes.length
        · simp only [FinalizeArena, hl, hlen, ne_eq, not_true_eq_false,
            if_false, ExistsId, containsA] at h ⊢
          exact finalizeLoop_contains _ _ _ _ _ _ h
        · simpa [FinalizeArena, hl, hlen, ExistsId, containsA] using h

/-- Witness for C10 at concrete inputs: `PreAllocate(4096)` at base 4096 on
the initial state registers the whole-region payload; deleting the sentinel
(or the empty id) is a stateless success; and a `deleteById` of some other id
leaves the sentinel registered. -/
theorem whole_region_sentinel_invariant_witness :
    lookupA demoBase.objects (GenerateBlobID UINTPTR_MAX) =
        some { object_id := GenerateBlobID UINTPTR_MAX, external_id := "",
               data_size := 4096, external_size := 0, pointer := 4096,
               store_fd := 0, arena_fd := -1, map_size := 4096,
               data_offset := 0 } ∧
      DeleteId (GenerateBlobID UINTPTR_MAX) demoBase = (.ok, demoBase) ∧
      DeleteId EmptyBlobID demoBase = (.ok, demoBase) ∧
      ExistsId (stepOp demoBase (.deleteById 9999))
        (GenerateBlobID UINTPTR_MAX) = true := by
  obtain ⟨h1, h2, h3⟩ := whole_region_sentinel_invariant
  refine ⟨(h1 4096 4096 initState demoBase (by decide) ?_).1,
    (h2 demoBase).1, (h2 demoBase).2, h3 demoBase (.deleteById 9999) (by decide)⟩
  decide

end Vineyard
